import Mathlib

/-!
Shallow embedding of `logger.py`, a polling logger for an analog keyboard.

The embedding models:
* the `WootingPython` object state (`buffer_size`, the two ctypes read
  buffers, the excluded-key set stored by `set_excluded_keys`);
* `read_full_buffer`: the per-index filtering loop over the raw code and
  analog buffers (the SDK call itself is modelled by its observable effect,
  namely the returned count `result` and the buffer contents after the call);
* `wait_for_key` and the `__main__` recording loop as functions over the
  stream of decoded frames, with the CSV row construction of the main loop;
* the parse-back direction (splitting the pipe-joined payload and re-pairing),
  which exists only as a specification-level construction.

Analog values (C floats) are modelled as rationals: the program never does
arithmetic on them, it only copies and stringifies them.
-/

namespace WootingLogger

/-- `SCAN_CODE_ESC = 41` from logger.py. -/
def SCAN_CODE_ESC : Nat := 41

/-- `SCAN_CODE_SPACE = 44` from logger.py. -/
def SCAN_CODE_SPACE : Nat := 44

/-- A decoded frame: the list of (keycode, analog value) pairs returned by
`read_full_buffer`. -/
abbrev Frame := List (Nat × ℚ)

/-- The observable state of a `WootingPython` instance: the stored
`buffer_size` and the two ctypes buffers allocated in `__init__`
(`code_buffer` with `buffer_size` `c_uint16` slots and `analog_buffer` with
`buffer_size` `c_float` slots, both zero-initialised), plus the excluded-key
set `self._excluded`. -/
structure WootingPython where
  buffer_size : Nat
  code_buffer : List Nat
  analog_buffer : List ℚ
  excluded : List Nat
deriving DecidableEq

/-- `WootingPython.__init__`: stores `buffer_size` unmodified and allocates
both read buffers with exactly `buffer_size` zeroed slots; `self._excluded`
starts empty.  (Library loading and `wooting_analog_initialise` are external
effects with no bearing on this state.) -/
def WootingPython.init (buffer_size : Nat) : WootingPython :=
  { buffer_size := buffer_size
    code_buffer := List.replicate buffer_size 0
    analog_buffer := List.replicate buffer_size 0
    excluded := [] }

/-- The Python default `buffer_size=64` of `WootingPython.__init__`, used by
`__main__`. -/
def DEFAULT_BUFFER_SIZE : Nat := 64

/-- `set_excluded_keys`: replaces the excluded-key set.  Python stores
`set(excluded)`; only membership is ever consulted, so a list with
`List.contains` membership is a faithful model. -/
def set_excluded_keys (wp : WootingPython) (excluded : List Nat) : WootingPython :=
  { wp with excluded := excluded }

/-- The filtering condition of the loop body in `read_full_buffer`:
`(strip is False or self.code_buffer[x] > 0) and self.code_buffer[x] not in self._excluded`. -/
def keepSlot (strip : Bool) (excluded : List Nat) (code : Nat) : Bool :=
  (!strip || decide (0 < code)) && !(excluded.contains code)

/-- The accumulation loop of `read_full_buffer`:
`for x in range(n): if keep(code_buffer[x]): values.append((code_buffer[x], analog_buffer[x]))`.
Out-of-range indexing is modelled with `getD` (never reached under the SDK
contract `result <= buffer_size`). -/
def bufferLoop (strip : Bool) (excluded : List Nat)
    (codeBuf : List Nat) (analogBuf : List ℚ) : Nat → Frame
  | 0 => []
  | n + 1 =>
      bufferLoop strip excluded codeBuf analogBuf n ++
        (if keepSlot strip excluded (codeBuf.getD n 0) then
          [(codeBuf.getD n 0, analogBuf.getD n 0)] else [])

/-- `read_full_buffer`, as a function of the SDK call's observable effect:
the returned count `result` and the contents of the (freshly `memset`)
code/analog buffers.  A negative `result` prints a warning and returns `[]`;
the Bool component records whether that warning branch was taken. -/
def read_full_buffer (result : Int) (codeBuf : List Nat) (analogBuf : List ℚ)
    (strip : Bool) (excluded : List Nat) : Frame × Bool :=
  if result < 0 then ([], true)
  else (bufferLoop strip excluded codeBuf analogBuf result.toNat, false)

/-- Every slot the buffer loop emits satisfies the keep condition. -/
lemma keepSlot_of_mem_bufferLoop {strip : Bool} {excluded : List Nat}
    {codeBuf : List Nat} {analogBuf : List ℚ} {n : Nat} {p : Nat × ℚ}
    (hp : p ∈ bufferLoop strip excluded codeBuf analogBuf n) :
    keepSlot strip excluded p.1 = true := by
  induction n with
  | zero => simp [bufferLoop] at hp
  | succ m ih =>
    rw [bufferLoop] at hp
    rcases List.mem_append.1 hp with h | h
    · exact ih h
    · by_cases hk : keepSlot strip excluded (codeBuf.getD m 0) = true
      · rw [if_pos hk, List.mem_singleton] at h
        rw [h]
        exact hk
      · rw [if_neg hk] at h
        simp at h

/-- The buffer loop emits at most one slot per index. -/
lemma bufferLoop_length_le (strip : Bool) (excluded : List Nat)
    (codeBuf : List Nat) (analogBuf : List ℚ) (n : Nat) :
    (bufferLoop strip excluded codeBuf analogBuf n).length ≤ n := by
  induction n with
  | zero => simp [bufferLoop]
  | succ m ih =>
    rw [bufferLoop, List.length_append]
    have h1 : (if keepSlot strip excluded (codeBuf.getD m 0) then
        [(codeBuf.getD m 0, analogBuf.getD m 0)] else ([] : Frame)).length ≤ 1 := by
      split <;> simp
    omega

/-- Excluded codes never pass the keep condition. -/
lemma contains_eq_false_of_keepSlot {strip : Bool} {excluded : List Nat} {code : Nat}
    (h : keepSlot strip excluded code = true) : excluded.contains code = false := by
  rw [keepSlot, Bool.and_eq_true] at h
  simpa using h.2

/-- With `strip = true`, only nonzero codes pass the keep condition. -/
lemma ne_zero_of_keepSlot_strip {excluded : List Nat} {code : Nat}
    (h : keepSlot true excluded code = true) : code ≠ 0 := by
  rw [keepSlot, Bool.and_eq_true] at h
  have h3 := h.1
  simp at h3
  omega

/-- In-bounds, the indexed buffer loop is the filter of the first `n` slots of
the zipped buffers. -/
lemma bufferLoop_eq_filter_take (strip : Bool) (excluded : List Nat)
    (codeBuf : List Nat) (analogBuf : List ℚ) (n : Nat)
    (h1 : n ≤ codeBuf.length) (h2 : n ≤ analogBuf.length) :
    bufferLoop strip excluded codeBuf analogBuf n
      = ((codeBuf.zip analogBuf).take n).filter (fun p => keepSlot strip excluded p.1) := by
  induction n with
  | zero => simp [bufferLoop]
  | succ m ih =>
    have hm1 : m < codeBuf.length := by omega
    have hm2 : m < analogBuf.length := by omega
    have hz : m < (codeBuf.zip analogBuf).length := by
      rw [List.length_zip codeBuf analogBuf]
      exact lt_min hm1 hm2
    rw [bufferLoop, ih (by omega) (by omega), List.take_succ,
        List.getElem?_eq_getElem hz, List.filter_append]
    have hget : (codeBuf.zip analogBuf)[m] = (codeBuf[m], analogBuf[m]) := List.getElem_zip
    have hc : codeBuf.getD m 0 = codeBuf[m] := List.getD_eq_getElem codeBuf 0 hm1
    have ha : analogBuf.getD m 0 = analogBuf[m] := List.getD_eq_getElem analogBuf 0 hm2
    rw [hc, ha]
    by_cases hk : keepSlot strip excluded codeBuf[m] = true
    · simp [hget, hk]
    · simp [hget, hk]

/-- The inner scan `for code, value in key_states: if code == c` used by both
`wait_for_key` and the stop check of the main loop. -/
def containsCode (code : Nat) (frame : Frame) : Bool :=
  frame.any (fun key_state => key_state.1 == code)

/-- Flattening of the main loop's row payload:
`[x for key_state in key_states for x in key_state]` followed by `map(str, ...)`. -/
def flattenFrame (frame : Frame) : List String :=
  frame.flatMap (fun key_state => [toString key_state.1, toString key_state.2])

/-- Python's `'|'.join`. -/
def pipeJoin : List String → String
  | [] => ""
  | [t] => t
  | t :: u :: ts => t ++ "|" ++ pipeJoin (u :: ts)

/-- The CSV row built each iteration of the main loop:
`[str(time.time()), str(len(key_states)), '|'.join(map(str, flatten))]`.
The timestamp `time.time()` is an external input, passed in here. -/
def mkRow (timestamp : ℚ) (key_states : Frame) : List String :=
  [toString timestamp, toString key_states.length, pipeJoin (flattenFrame key_states)]

/-- Splitting a character list on `'|'`, matching Python's `s.split('|')`
(in particular the empty string splits to `['']`). -/
def pipeSplitChars : List Char → List String
  | [] => [""]
  | c :: cs =>
    if c = '|' then "" :: pipeSplitChars cs
    else
      match pipeSplitChars cs with
      | [] => [String.mk [c]]
      | t :: ts => String.mk (c :: t.data) :: ts

/-- Splitting a payload string on the `'|'` delimiter (the parse-back
direction of the round-trip property). -/
def pipeSplit (s : String) : List String := pipeSplitChars s.data

/-- Re-pairing a flat token list `[c1, v1, c2, v2, ...]` into
`[(c1, v1), (c2, v2), ...]`; a dangling odd token is dropped. -/
def rePair : List String → List (String × String)
  | a :: b :: rest => (a, b) :: rePair rest
  | _ => []

/-- Parsing a persisted CSV row back: recover the textual key count and the
re-paired (code, value) tokens of the payload field. -/
def parseRow : List String → Option (String × List (String × String))
  | [_, keyCount, payload] => some (keyCount, rePair (pipeSplit payload))
  | _ => none

/-- The mutable state of the `__main__` recording loop: `rows`, `logging`,
`last_keys_pressed`, and the CSV rows written so far. -/
structure LoopState where
  rows : Nat
  logging : Bool
  last_keys_pressed : Int
  log : List (List String)
deriving DecidableEq

/-- One iteration of the `while logging` body in `__main__`, applied to the
decoded frame `key_states` read at timestamp `timestamp`: print/update the
changed key count, set `logging = False` when the frame contains
`SCAN_CODE_ESC`, write the CSV row, increment `rows`. -/
def loopStep (s : LoopState) (timestamp : ℚ) (key_states : Frame) : LoopState :=
  { rows := s.rows + 1
    logging := if containsCode SCAN_CODE_ESC key_states then false else s.logging
    last_keys_pressed :=
      if (key_states.length : Int) ≠ s.last_keys_pressed then (key_states.length : Int)
      else s.last_keys_pressed
    log := s.log ++ [mkRow timestamp key_states] }

/-- The `while logging` loop of `__main__`, driven by the finite stream of
(timestamp, decoded frame) observations; the loop re-checks `logging` before
consuming each observation. -/
def runLoop (s : LoopState) : List (ℚ × Frame) → LoopState
  | [] => s
  | input :: rest => if s.logging then runLoop (loopStep s input.1 input.2) rest else s

/-- The loop state at the top of `__main__`'s recording loop:
`rows = 0`, `logging = True`, `last_keys_pressed = -1`, empty log. -/
def initState : LoopState := ⟨0, true, -1, []⟩

/-- The row written for one observation. -/
def rowOf (input : ℚ × Frame) : List String := mkRow input.1 input.2

/-- `wait_for_key`, driven by the stream of decoded frames: consume frames
until one contains `code`, returning the unconsumed remainder (`none` when the
stream is exhausted without ever seeing `code`, modelling an endless wait). -/
def wait_for_key (code : Nat) : List (ℚ × Frame) → Option (List (ℚ × Frame))
  | [] => none
  | input :: rest => if containsCode code input.2 then some rest else wait_for_key code rest

/-- The `__main__` session: block in `wait_for_key(SCAN_CODE_SPACE)`, then run
the recording loop from `initState` on the remaining observations. -/
def session (inputs : List (ℚ × Frame)) : Option LoopState :=
  match wait_for_key SCAN_CODE_SPACE inputs with
  | none => none
  | some rest => some (runLoop initState rest)

/-- A loop whose `logging` flag is already false consumes nothing. -/
lemma runLoop_stopped {s : LoopState} (h : s.logging = false) :
    ∀ inputs : List (ℚ × Frame), runLoop s inputs = s := by
  intro inputs
  cases inputs with
  | nil => rfl
  | cons input rest => simp [runLoop, h]

/-- Running the loop over a stop-free block of observations keeps `logging`
true, advances `rows` by the block length, and appends exactly the block's
rows to the log. -/
lemma runLoop_no_stop_append (s : LoopState) (pre rest : List (ℚ × Frame))
    (hlog : s.logging = true)
    (hpre : ∀ p ∈ pre, containsCode SCAN_CODE_ESC p.2 = false) :
    ∃ lk : Int, runLoop s (pre ++ rest)
      = runLoop ⟨s.rows + pre.length, true, lk, s.log ++ pre.map rowOf⟩ rest := by
  induction pre generalizing s with
  | nil =>
    refine ⟨s.last_keys_pressed, ?_⟩
    cases s with
    | mk rows logging lk log => simp_all
  | cons p pre ih =>
    have hp : containsCode SCAN_CODE_ESC p.2 = false := hpre p (List.mem_cons_self p pre)
    have hstep : (loopStep s p.1 p.2).logging = true := by
      simp [loopStep, hp, hlog]
    obtain ⟨lk, hrun⟩ := ih (loopStep s p.1 p.2) hstep
      (fun q hq => hpre q (List.mem_cons_of_mem p hq))
    refine ⟨lk, ?_⟩
    rw [List.cons_append, runLoop, if_pos hlog, hrun]
    have hrows : (loopStep s p.1 p.2).rows = s.rows + 1 := rfl
    have hlogs : (loopStep s p.1 p.2).log = s.log ++ [rowOf p] := rfl
    rw [hrows, hlogs]
    have h1 : s.rows + 1 + pre.length = s.rows + (p :: pre).length := by
      simp
      omega
    have h2 : (s.log ++ [rowOf p]) ++ pre.map rowOf = s.log ++ (p :: pre).map rowOf := by
      simp
    rw [h1, h2]

/-- The log grown by a run is the rows of some consumed-observation block. -/
lemma runLoop_log_take (inputs : List (ℚ × Frame)) (s : LoopState) :
    ∃ k : Nat, (runLoop s inputs).log = s.log ++ (inputs.take k).map rowOf := by
  induction inputs generalizing s with
  | nil => exact ⟨0, by simp [runLoop]⟩
  | cons p rest ih =>
    by_cases hlog : s.logging = true
    · obtain ⟨k, hk⟩ := ih (loopStep s p.1 p.2)
      refine ⟨k + 1, ?_⟩
      rw [runLoop, if_pos hlog, hk]
      have hlogs : (loopStep s p.1 p.2).log = s.log ++ [rowOf p] := rfl
      rw [hlogs, List.take_succ_cons, List.map_cons, List.append_assoc]
      rfl
    · refine ⟨0, ?_⟩
      rw [Bool.not_eq_true] at hlog
      rw [runLoop_stopped hlog]
      simp

/-- The row-counter invariant: `rows` tracks the number of log rows. -/
lemma runLoop_rows_eq_log_length (inputs : List (ℚ × Frame)) (s : LoopState)
    (h : s.rows = s.log.length) :
    (runLoop s inputs).rows = (runLoop s inputs).log.length := by
  induction inputs generalizing s with
  | nil => simpa [runLoop] using h
  | cons p rest ih =>
    by_cases hlog : s.logging = true
    · rw [runLoop, if_pos hlog]
      refine ih (loopStep s p.1 p.2) ?_
      have hrows : (loopStep s p.1 p.2).rows = s.rows + 1 := rfl
      have hlogs : (loopStep s p.1 p.2).log = s.log ++ [rowOf p] := rfl
      rw [hrows, hlogs, List.length_append, h]
      rfl
    · rw [Bool.not_eq_true] at hlog
      rw [runLoop_stopped hlog]
      exact h

/-- `wait_for_key` skips every frame not containing the code and returns the
remainder after the first frame that does. -/
lemma wait_for_key_append (code : Nat) (pre : List (ℚ × Frame)) (t : ℚ) (f : Frame)
    (rest : List (ℚ × Frame))
    (hpre : ∀ p ∈ pre, containsCode code p.2 = false)
    (hf : containsCode code f = true) :
    wait_for_key code (pre ++ (t, f) :: rest) = some rest := by
  induction pre with
  | nil => simp [wait_for_key, hf]
  | cons p pre ih =>
    have hp : containsCode code p.2 = false := hpre p (List.mem_cons_self p pre)
    rw [List.cons_append, wait_for_key, hp]
    simp only [Bool.false_eq_true, if_false]
    exact ih (fun q hq => hpre q (List.mem_cons_of_mem p hq))

/-- A delimiter-free character list splits to a single token. -/
lemma pipeSplitChars_no_pipe (a : List Char) (h : '|' ∉ a) :
    pipeSplitChars a = [String.mk a] := by
  induction a with
  | nil => rfl
  | cons c cs ih =>
    have hc : ¬ (c = '|') := by
      intro hc
      exact h (hc ▸ List.mem_cons_self c cs)
    rw [pipeSplitChars, if_neg hc, ih (fun hm => h (List.mem_cons_of_mem c hm))]

/-- Splitting after a delimiter-free token followed by a delimiter peels off
exactly that token. -/
lemma pipeSplitChars_append (a : List Char) (h : '|' ∉ a) (cs : List Char) :
    pipeSplitChars (a ++ '|' :: cs) = String.mk a :: pipeSplitChars cs := by
  induction a with
  | nil =>
    rw [List.nil_append, pipeSplitChars, if_pos rfl]
  | cons c a ih =>
    have hc : ¬ (c = '|') := by
      intro hc
      exact h (hc ▸ List.mem_cons_self c a)
    rw [List.cons_append, pipeSplitChars, if_neg hc,
        ih (fun hm => h (List.mem_cons_of_mem c hm))]

/-- Splitting on the delimiter undoes the pipe join, for delimiter-free
tokens. -/
lemma pipeSplit_pipeJoin (ts : List String) :
    ts ≠ [] → (∀ t ∈ ts, '|' ∉ t.data) → pipeSplit (pipeJoin ts) = ts := by
  induction ts with
  | nil =>
    intro hne _
    exact absurd rfl hne
  | cons t ts ih =>
    intro _ h
    cases ts with
    | nil =>
      rw [pipeJoin, pipeSplit, pipeSplitChars_no_pipe t.data (h t (List.mem_cons_self t []))]
    | cons u ts2 =>
      rw [pipeJoin, pipeSplit]
      have hd : (t ++ "|" ++ pipeJoin (u :: ts2)).data
          = t.data ++ '|' :: (pipeJoin (u :: ts2)).data := by
        rw [String.data_append, String.data_append]
        simp
      rw [hd, pipeSplitChars_append t.data (h t (List.mem_cons_self t (u :: ts2)))]
      have hrest : pipeSplitChars (pipeJoin (u :: ts2)).data = u :: ts2 :=
        ih (by simp) (fun q hq => h q (List.mem_cons_of_mem t hq))
      rw [hrest]

/-- Re-pairing the flattened payload tokens recovers the frame's pairs in
their textual form. -/
lemma rePair_flattenFrame (frame : Frame) :
    rePair (flattenFrame frame) = frame.map (fun ks => (toString ks.1, toString ks.2)) := by
  induction frame with
  | nil => rfl
  | cons x xs ih =>
    have hflat : flattenFrame (x :: xs)
        = toString x.1 :: toString x.2 :: flattenFrame xs := by
      simp [flattenFrame]
    rw [hflat, rePair, ih, List.map_cons]

/-- C1 (counterexample): with zero-stripping enabled, the decoder does emit a
slot of intensity exactly 0 — `strip` filters on the key-code, not the
intensity.  On the raw buffer `[(41, 0.0), (44, 0.9), (0, 0.0)]` with
capacity 3, empty exclusions and `strip = true`, the output is
`[(41, 0.0), (44, 0.9)]`, not the claimed `[(44, 0.9)]`; with exclusions
`{44}` it is `[(41, 0.0)]`, not the claimed `[]`. -/
theorem c1_counterexample :
    (read_full_buffer 3 [41, 44, 0] [0, mkRat 9 10, 0] true []).1
        = [(41, 0), (44, mkRat 9 10)] ∧
    ((41 : Nat), (0 : ℚ)) ∈ (read_full_buffer 3 [41, 44, 0] [0, mkRat 9 10, 0] true []).1 ∧
    (read_full_buffer 3 [41, 44, 0] [0, mkRat 9 10, 0] true []).1 ≠ [(44, mkRat 9 10)] ∧
    (read_full_buffer 3 [41, 44, 0] [0, mkRat 9 10, 0] true [44]).1 = [(41, 0)] := by
  decide

/-- C1 (amended): zero-stripping filters on the key-code, not the intensity.
With `strip = true` no output slot has key-code 0; with `strip = false`
key-code-0 slots may appear.  Decoding the raw buffer
`[(41, 0.0), (44, 0.9), (0, 0.0)]` with capacity 3, empty exclusions and
`strip = true` yields `[(41, 0.0), (44, 0.9)]`, and with exclusions `{44}`
yields `[(41, 0.0)]`. -/
theorem c1_strip_keycode :
    (∀ (result : Int) (codeBuf : List Nat) (analogBuf : List ℚ) (excluded : List Nat),
      ∀ p ∈ (read_full_buffer result codeBuf analogBuf true excluded).1, p.1 ≠ 0) ∧
    (read_full_buffer 3 [41, 44, 0] [0, mkRat 9 10, 0] true []).1
        = [(41, 0), (44, mkRat 9 10)] ∧
    (read_full_buffer 3 [41, 44, 0] [0, mkRat 9 10, 0] true [44]).1 = [(41, 0)] ∧
    ((0 : Nat), (0 : ℚ)) ∈ (read_full_buffer 1 [0] [0] false []).1 := by
  refine ⟨?_, by decide, by decide, by decide⟩
  intro result codeBuf analogBuf excluded p hp
  rw [read_full_buffer] at hp
  by_cases hneg : result < 0
  · rw [if_pos hneg] at hp
    simp at hp
  · rw [if_neg hneg] at hp
    exact ne_zero_of_keepSlot_strip (keepSlot_of_mem_bufferLoop hp)

/-- C1 (witness): the amended strip guarantee applied to the slot
`(44, 0.9)` of the Scenario A output. -/
theorem c1_strip_keycode_witness : ((44 : Nat), mkRat 9 10).1 ≠ 0 :=
  c1_strip_keycode.1 3 [41, 44, 0] [0, mkRat 9 10, 0] [] (44, mkRat 9 10) (by decide)

/-- C2: a negative SDK count makes `read_full_buffer` return the empty frame
together with the warning signal (the function is total — it returns rather
than raising), and feeding that empty frame to a recording-loop iteration
leaves `logging` true, so the session is never aborted by such a read. -/
theorem c2_negative_count_empty (result : Int) (codeBuf : List Nat) (analogBuf : List ℚ)
    (strip : Bool) (excluded : List Nat) (hneg : result < 0) :
    read_full_buffer result codeBuf analogBuf strip excluded = ([], true) ∧
    (∀ (s : LoopState) (t : ℚ), s.logging = true →
      (loopStep s t (read_full_buffer result codeBuf analogBuf strip excluded).1).logging
        = true) := by
  constructor
  · rw [read_full_buffer, if_pos hneg]
  · intro s t hs
    rw [read_full_buffer, if_pos hneg]
    simpa [loopStep, containsCode] using hs

/-- C2 (witness): the negative-count behaviour at `result = -1`. -/
theorem c2_negative_count_empty_witness :
    read_full_buffer (-1) [] [] true [] = ([], true) ∧
    (∀ (s : LoopState) (t : ℚ), s.logging = true →
      (loopStep s t (read_full_buffer (-1) [] [] true []).1).logging = true) :=
  c2_negative_count_empty (-1) [] [] true [] (by decide)

/-- C3: with buffers of `capacity` slots and the SDK contract
`result ≤ capacity`, the decoded output has at most `min result capacity`
slots, and no slot with an excluded key-code ever appears in it. -/
theorem c3_length_and_exclusion (capacity : Nat) (result : Int)
    (codeBuf : List Nat) (analogBuf : List ℚ) (strip : Bool) (excluded : List Nat)
    (hcb : codeBuf.length = capacity) (hab : analogBuf.length = capacity)
    (hres : result.toNat ≤ capacity) :
    (read_full_buffer result codeBuf analogBuf strip excluded).1.length
        ≤ min result.toNat capacity ∧
    ∀ p ∈ (read_full_buffer result codeBuf analogBuf strip excluded).1,
      excluded.contains p.1 = false := by
  constructor
  · rw [read_full_buffer]
    by_cases hneg : result < 0
    · rw [if_pos hneg]
      simp
    · rw [if_neg hneg]
      have hlen := bufferLoop_length_le strip excluded codeBuf analogBuf result.toNat
      simp only
      omega
  · intro p hp
    rw [read_full_buffer] at hp
    by_cases hneg : result < 0
    · rw [if_pos hneg] at hp
      simp at hp
    · rw [if_neg hneg] at hp
      exact contains_eq_false_of_keepSlot (keepSlot_of_mem_bufferLoop hp)

/-- C3 (witness): the bound and exclusion guarantee on the concrete read of
`[(41, 0.0), (44, 0.0), (0, 0.0)]` with capacity 3 and exclusions `{44}`. -/
theorem c3_length_and_exclusion_witness :
    (read_full_buffer 3 [41, 44, 0] [0, 0, 0] true [44]).1.length
        ≤ min (Int.toNat 3) 3 ∧
    ∀ p ∈ (read_full_buffer 3 [41, 44, 0] [0, 0, 0] true [44]).1,
      List.contains [44] p.1 = false :=
  c3_length_and_exclusion 3 3 [41, 44, 0] [0, 0, 0] true [44] rfl rfl (by decide)

/-- C4: under the SDK contract `result ≤ capacity`, the decoded frame is
exactly the first `result` raw slots in scan order restricted to the slots
passing the keep condition — a filter, hence a subsequence of the raw slot
sequence with no reordering or insertion. -/
theorem c4_order_preserving (result : Int) (codeBuf : List Nat) (analogBuf : List ℚ)
    (strip : Bool) (excluded : List Nat)
    (h1 : result.toNat ≤ codeBuf.length) (h2 : result.toNat ≤ analogBuf.length) :
    (read_full_buffer result codeBuf analogBuf strip excluded).1
      = ((codeBuf.zip analogBuf).take result.toNat).filter
          (fun p => keepSlot strip excluded p.1) ∧
    List.Sublist (read_full_buffer result codeBuf analogBuf strip excluded).1
      (codeBuf.zip analogBuf) := by
  have heq : (read_full_buffer result codeBuf analogBuf strip excluded).1
      = ((codeBuf.zip analogBuf).take result.toNat).filter
          (fun p => keepSlot strip excluded p.1) := by
    rw [read_full_buffer]
    by_cases hneg : result < 0
    · rw [if_pos hneg]
      have h0 : result.toNat = 0 := by omega
      rw [h0]
      simp
    · rw [if_neg hneg]
      exact bufferLoop_eq_filter_take strip excluded codeBuf analogBuf result.toNat h1 h2
  refine ⟨heq, ?_⟩
  rw [heq]
  exact (List.filter_sublist _).trans (List.take_sublist _ _)

/-- C4 (witness): the filter characterisation on the Scenario A read. -/
theorem c4_order_preserving_witness :
    (read_full_buffer 3 [41, 44, 0] [0, mkRat 9 10, 0] true []).1
      = (([41, 44, 0].zip [(0 : ℚ), mkRat 9 10, 0]).take (Int.toNat 3)).filter
          (fun p => keepSlot true [] p.1) ∧
    List.Sublist (read_full_buffer 3 [41, 44, 0] [0, mkRat 9 10, 0] true []).1
      ([41, 44, 0].zip [(0 : ℚ), mkRat 9 10, 0]) :=
  c4_order_preserving 3 [41, 44, 0] [0, mkRat 9 10, 0] true [] (by decide) (by decide)

/-- C5: the CSV row built from a frame and timestamp, when parsed back by
splitting the payload on `'|'` and re-pairing, recovers the key count and the
ordered (code, value) pairs in their textual form (the tokens are
delimiter-free, as all numeric renderings are). -/
theorem c5_row_roundtrip (timestamp : ℚ) (frame : Frame)
    (h : ∀ tok ∈ flattenFrame frame, '|' ∉ tok.data) :
    parseRow (mkRow timestamp frame)
      = some (toString frame.length,
          frame.map (fun ks => (toString ks.1, toString ks.2))) := by
  cases frame with
  | nil => rfl
  | cons x xs =>
    have hne : flattenFrame (x :: xs) ≠ [] := by simp [flattenFrame]
    have hsplit := pipeSplit_pipeJoin (flattenFrame (x :: xs)) hne h
    show some (toString (x :: xs).length,
          rePair (pipeSplit (pipeJoin (flattenFrame (x :: xs)))))
        = some (toString (x :: xs).length,
          (x :: xs).map fun ks => (toString ks.1, toString ks.2))
    rw [hsplit, rePair_flattenFrame]

/-- C5 (witness): the round-trip on the one-slot frame `[(44, 0.9)]`. -/
theorem c5_row_roundtrip_witness :
    parseRow (mkRow 1 [((44 : Nat), mkRat 9 10)])
      = some (toString (([((44 : Nat), mkRat 9 10)] : Frame)).length,
          ([((44 : Nat), mkRat 9 10)] : Frame).map
            (fun ks => (toString ks.1, toString ks.2))) :=
  c5_row_roundtrip 1 [(44, mkRat 9 10)] (by decide)

/-- C6: when a recording iteration decodes a frame containing the stop code,
the loop flag goes false and the loop exits without consuming further
observations, the triggering frame's row is still the last one persisted, and
the reported `rows` equals the number of iterations executed. -/
theorem c6_stop_persists (pre : List (ℚ × Frame)) (t : ℚ) (f : Frame)
    (post : List (ℚ × Frame))
    (hpre : ∀ p ∈ pre, containsCode SCAN_CODE_ESC p.2 = false)
    (hstop : containsCode SCAN_CODE_ESC f = true) :
    (runLoop initState (pre ++ (t, f) :: post)).logging = false ∧
    (runLoop initState (pre ++ (t, f) :: post)).rows = pre.length + 1 ∧
    (runLoop initState (pre ++ (t, f) :: post)).log = pre.map rowOf ++ [mkRow t f] := by
  obtain ⟨lk, hrun⟩ := runLoop_no_stop_append initState pre ((t, f) :: post) rfl hpre
  rw [hrun]
  rw [runLoop, if_pos rfl]
  have hstep : (loopStep ⟨initState.rows + pre.length, true, lk,
      initState.log ++ pre.map rowOf⟩ ((t, f) : ℚ × Frame).1
        ((t, f) : ℚ × Frame).2).logging = false := by
    simp [loopStep, hstop]
  rw [runLoop_stopped hstep]
  refine ⟨hstep, ?_, ?_⟩
  · show initState.rows + pre.length + 1 = pre.length + 1
    simp [initState]
  · show (initState.log ++ pre.map rowOf) ++ [mkRow t f] = pre.map rowOf ++ [mkRow t f]
    simp [initState]

/-- C6 (witness): the stop behaviour on a session whose first recorded frame
contains only the stop code. -/
theorem c6_stop_persists_witness :
    (runLoop initState [((0 : ℚ), [((41 : Nat), (1 : ℚ))])]).logging = false ∧
    (runLoop initState [((0 : ℚ), [((41 : Nat), (1 : ℚ))])]).rows = 1 ∧
    (runLoop initState [((0 : ℚ), [((41 : Nat), (1 : ℚ))])]).log
      = [mkRow 0 [((41 : Nat), (1 : ℚ))]] :=
  c6_stop_persists [] 0 [(41, 1)] [] (fun p hp => absurd hp (List.not_mem_nil p)) (by decide)

/-- C7: the session writes no rows while waiting for the start code — the
log of the whole session is the log of the recording loop run on the
observations after the start frame, and every row in it is the row of one of
those later observations. -/
theorem c7_no_rows_before_start (pre : List (ℚ × Frame)) (t : ℚ) (f : Frame)
    (rest : List (ℚ × Frame))
    (hpre : ∀ p ∈ pre, containsCode SCAN_CODE_SPACE p.2 = false)
    (hstart : containsCode SCAN_CODE_SPACE f = true) :
    session (pre ++ (t, f) :: rest) = some (runLoop initState rest) ∧
    ∃ k : Nat, (runLoop initState rest).log = (rest.take k).map rowOf := by
  constructor
  · unfold session
    rw [wait_for_key_append SCAN_CODE_SPACE pre t f rest hpre hstart]
  · obtain ⟨k, hk⟩ := runLoop_log_take rest initState
    refine ⟨k, ?_⟩
    simpa [initState] using hk

/-- C7 (witness): a session whose single observation is the start frame. -/
theorem c7_no_rows_before_start_witness :
    session [((0 : ℚ), [((44 : Nat), (1 : ℚ))])] = some (runLoop initState []) ∧
    ∃ k : Nat, (runLoop initState []).log = (List.take k []).map rowOf :=
  c7_no_rows_before_start [] 0 [(44, 1)] []
    (fun p hp => absurd hp (List.not_mem_nil p)) (by decide)

/-- C8 (counterexample): the constructor performs no clamping at all — the
Python default `buffer_size = 64` is itself outside the claimed range
`[1, 32]` and is used as-is for the buffers, and `buffer_size = 0` yields an
effective capacity of 0, outside any range of the form `[1, ceiling]`. -/
theorem c8_counterexample :
    (WootingPython.init 64).buffer_size = 64 ∧ ¬(64 ≤ 32) ∧
    (WootingPython.init 64).code_buffer.length = 64 ∧
    (WootingPython.init 0).buffer_size = 0 ∧ ¬(1 ≤ 0) ∧
    DEFAULT_BUFFER_SIZE = 64 := by
  refine ⟨rfl, by omega, by simp [WootingPython.init], rfl, by omega, rfl⟩

/-- C8 (amended): the constructor stores the requested capacity unmodified —
no range check, no clamping — and allocates both read buffers with exactly
that many slots, so the effective read capacity equals the constructor
argument for every value, in or out of any device-imposed range. -/
theorem c8_no_clamping (buffer_size : Nat) :
    (WootingPython.init buffer_size).buffer_size = buffer_size ∧
    (WootingPython.init buffer_size).code_buffer.length = buffer_size ∧
    (WootingPython.init buffer_size).analog_buffer.length = buffer_size := by
  refine ⟨rfl, ?_, ?_⟩ <;> simp [WootingPython.init]

/-- C9: every recording iteration appends exactly one row and bumps `rows` by
exactly one; the empty frame's row has key count `"0"` and empty payload; and
`rows` equals the log length after any run that starts with the invariant. -/
theorem c9_one_row_per_iteration :
    (∀ (s : LoopState) (t : ℚ) (f : Frame),
        (loopStep s t f).rows = s.rows + 1 ∧
        (loopStep s t f).log = s.log ++ [mkRow t f]) ∧
    (∀ t : ℚ, mkRow t [] = [toString t, "0", ""]) ∧
    (∀ (inputs : List (ℚ × Frame)) (s : LoopState),
        s.rows = s.log.length →
        (runLoop s inputs).rows = (runLoop s inputs).log.length) := by
  refine ⟨fun s t f => ⟨rfl, rfl⟩, fun t => rfl,
    fun inputs s h => runLoop_rows_eq_log_length inputs s h⟩

/-- C9 (witness): the counter/log agreement on a two-iteration run whose
first frame is empty. -/
theorem c9_one_row_per_iteration_witness :
    (runLoop initState [((0 : ℚ), ([] : Frame)), ((1 : ℚ), [((44 : Nat), (1 : ℚ))])]).rows
      = (runLoop initState
          [((0 : ℚ), ([] : Frame)), ((1 : ℚ), [((44 : Nat), (1 : ℚ))])]).log.length :=
  c9_one_row_per_iteration.2.2
    [((0 : ℚ), ([] : Frame)), ((1 : ℚ), [((44 : Nat), (1 : ℚ))])] initState rfl

/-- No decoded slot carries an excluded key-code, for any count, buffers and
strip flag. -/
lemma read_full_buffer_not_excluded {result : Int} {codeBuf : List Nat}
    {analogBuf : List ℚ} {strip : Bool} {excluded : List Nat} :
    ∀ p ∈ (read_full_buffer result codeBuf analogBuf strip excluded).1,
      excluded.contains p.1 = false := by
  intro p hp
  rw [read_full_buffer] at hp
  by_cases hneg : result < 0
  · rw [if_pos hneg] at hp
    simp at hp
  · rw [if_neg hneg] at hp
    exact contains_eq_false_of_keepSlot (keepSlot_of_mem_bufferLoop hp)

/-- A decoded frame never contains an excluded code. -/
lemma containsCode_read_full_buffer {result : Int} {codeBuf : List Nat}
    {analogBuf : List ℚ} {strip : Bool} {excluded : List Nat} {code : Nat}
    (hcode : excluded.contains code = true) :
    containsCode code (read_full_buffer result codeBuf analogBuf strip excluded).1
      = false := by
  rw [containsCode, List.any_eq_false]
  intro q hq hqc
  have h1 : excluded.contains q.1 = false := read_full_buffer_not_excluded q hq
  have h2 : q.1 = code := by simpa using hqc
  rw [h2, hcode] at h1
  exact absurd h1 (by decide)

/-- If no observed frame ever contains the code, `wait_for_key` exhausts the
stream without returning. -/
lemma wait_for_key_none (code : Nat) (inputs : List (ℚ × Frame))
    (h : ∀ p ∈ inputs, containsCode code p.2 = false) :
    wait_for_key code inputs = none := by
  induction inputs with
  | nil => rfl
  | cons p rest ih =>
    rw [wait_for_key, h p (List.mem_cons_self p rest)]
    simp only [Bool.false_eq_true, if_false]
    exact ih (fun q hq => h q (List.mem_cons_of_mem p hq))

/-- If no observed frame contains the stop code, a run never changes the
`logging` flag. -/
lemma runLoop_logging_of_no_stop (inputs : List (ℚ × Frame))
    (h : ∀ p ∈ inputs, containsCode SCAN_CODE_ESC p.2 = false) :
    ∀ s : LoopState, (runLoop s inputs).logging = s.logging := by
  induction inputs with
  | nil => intro s; rfl
  | cons p rest ih =>
    intro s
    by_cases hs : s.logging = true
    · rw [runLoop, if_pos hs,
        ih (fun q hq => h q (List.mem_cons_of_mem p hq)) (loopStep s p.1 p.2)]
      simp [loopStep, h p (List.mem_cons_self p rest)]
    · rw [Bool.not_eq_true] at hs
      rw [runLoop_stopped hs]

/-- C10: a key-code placed in the exclusion set never appears in any decoded
frame, whatever the strip flag; consequently, over any stream of frames that
are all outputs of `read_full_buffer` with that exclusion set,
`wait_for_key` on that code never returns, and when the stop code is the
excluded one, the recording loop's stop check never fires. -/
theorem c10_excluded_code_invisible (code : Nat) (excluded : List Nat)
    (inputs : List (ℚ × Frame))
    (hcode : excluded.contains code = true)
    (hdec : ∀ p ∈ inputs, ∃ (result : Int) (codeBuf : List Nat) (analogBuf : List ℚ)
        (strip : Bool),
        p.2 = (read_full_buffer result codeBuf analogBuf strip excluded).1) :
    (∀ p ∈ inputs, containsCode code p.2 = false) ∧
    wait_for_key code inputs = none ∧
    (code = SCAN_CODE_ESC → ∀ s : LoopState, (runLoop s inputs).logging = s.logging) := by
  have hmem : ∀ p ∈ inputs, containsCode code p.2 = false := by
    intro p hp
    obtain ⟨result, codeBuf, analogBuf, strip, hdp⟩ := hdec p hp
    rw [hdp]
    exact containsCode_read_full_buffer hcode
  refine ⟨hmem, wait_for_key_none code inputs hmem, ?_⟩
  intro hesc
  exact runLoop_logging_of_no_stop inputs (fun p hp => hesc ▸ hmem p hp)

/-- C10 (witness): excluding `41` (the stop code) hides a pressed `41` from
the decoded frame, so waiting for `41` over that observation never returns. -/
theorem c10_excluded_code_invisible_witness :
    wait_for_key 41 [((0 : ℚ), (read_full_buffer 1 [41] [1] true [41]).1)] = none :=
  (c10_excluded_code_invisible 41 [41]
      [((0 : ℚ), (read_full_buffer 1 [41] [1] true [41]).1)] (by decide)
      (fun p hp => by
        rw [List.mem_singleton] at hp
        subst hp
        exact ⟨1, [41], [1], true, rfl⟩)).2.1

end WootingLogger
